/-
Verification of the playwright-repl core against its design specification.

The definitions below are a shallow embedding of the repository's source:
  * `tokenize`, `parseInput` .......... src/parser.mjs (Command Normalizer)
  * `SessionRecorder`, `SessionPlayer`,
    `SessionManager` ................. src/parser.mjs (Session Lifecycle Manager,
                                        shipped as recorder.mjs)
  * `onData`, `dispatchMsg` .......... src/connection.mjs (Transport Channel framing)
  * `DaemonConnection` ............... src/connection.mjs (close / pending calls)
  * `processCommandLine`, `replayRun`  src/repl.mjs (processLine and the .replay loop)
  * `SeqStep` ........................ src/repl.mjs (startCommandLoop command queue)

JavaScript strings are modelled as Lean `String` / `List Char`; buffers as
`List Char`; the event-driven control flow of the command loop as a small-step
transition relation.  Machine-level concerns (UTF-16 vs UTF-8, JS number
semantics) do not arise in the fragments under study: all values that flow
through the verified paths are strings, booleans and small integers.
-/
import Mathlib

namespace PlaywrightRepl

deriving instance DecidableEq for Except

/-! ### Tokenizer (src/parser.mjs, `tokenize`)

The source iterates over the characters of the line keeping `current` (the
token built so far) and `inQuote` (the opening quote character, or null).  A
quote character outside a quote opens a span; the matching character closes
it; whitespace outside quotes terminates the current token, which is pushed
only if non-empty. -/

/-- The single-quote character (code point 39). -/
def squote : Char := Char.ofNat 39

/-- The double-quote character. -/
def dquote : Char := '"'

/-- Loop of `tokenize`: `inQuote` mirrors the JS `inQuote` variable (`none` =
null), `current` the accumulated token, and the third argument the remaining
characters of the line. -/
def tokenizeGo (inQuote : Option Char) (current : List Char) :
    List Char → List (List Char)
  | [] => if current = [] then [] else [current]
  | ch :: rest =>
    match inQuote with
    | some q =>
      if ch = q then tokenizeGo none current rest
      else tokenizeGo (some q) (current ++ [ch]) rest
    | none =>
      if ch = dquote ∨ ch = squote then tokenizeGo (some ch) current rest
      else if ch = ' ' ∨ ch = '\t' then
        if current = [] then tokenizeGo none [] rest
        else current :: tokenizeGo none [] rest
      else tokenizeGo none (current ++ [ch]) rest

/-- `tokenize` from src/parser.mjs, over the character list of the line. -/
def tokenize (line : List Char) : List (List Char) :=
  tokenizeGo none [] line

/-- String-level wrapper producing the token list as strings. -/
def tokenizeStr (line : String) : List String :=
  (tokenize line.data).map String.mk

/-! ### Command Normalizer (src/parser.mjs, `parseInput`)

`parseInput` tokenizes the line, resolves the first token through the alias
table (case-insensitively), hands the token list to minimist with the
declared boolean set, coerces non-boolean values to strings, and finally
deletes every declared boolean that minimist defaulted to `false` and that
the user did not explicitly negate with `--no-<flag>`. -/

/-- A normalized flag value: JS boolean or string.  Values in the normalized
output are only ever booleans or strings (the spec requires all non-boolean
values to be string-typed, and the code coerces them with `String(...)`). -/
inductive FlagVal where
  | bool (b : Bool)
  | str (s : String)
deriving DecidableEq, Repr

/-- A minimist-style args object: `_` (positional arguments) plus named
flags, kept as an association list in insertion order. -/
structure Args where
  pos : List String
  flags : List (String × FlagVal)
deriving DecidableEq, Repr

/-- `ALIASES` from src/parser.mjs. -/
def ALIASES : List (String × String) :=
  [("o", "open"), ("g", "goto"), ("go", "goto"), ("back", "go-back"),
   ("fwd", "go-forward"), ("r", "reload"),
   ("c", "click"), ("dc", "dblclick"), ("t", "type"), ("f", "fill"),
   ("h", "hover"), ("p", "press"), ("sel", "select"), ("chk", "check"),
   ("unchk", "uncheck"),
   ("s", "snapshot"), ("snap", "snapshot"), ("ss", "screenshot"),
   ("e", "eval"), ("con", "console"), ("net", "network"),
   ("tl", "tab-list"), ("tn", "tab-new"), ("tc", "tab-close"),
   ("ts", "tab-select"),
   ("vt", "verify-text"), ("ve", "verify-element"), ("vv", "verify-value"),
   ("vl", "verify-list"),
   ("q", "close"), ("ls", "list")]

/-- `booleanOptions` from src/parser.mjs (a `Set` in the source; iteration
order of a JS `Set` is insertion order, which this list preserves). -/
def booleanOptions : List String :=
  ["headed", "persistent", "extension", "submit", "clear",
   "fullPage", "includeStatic"]

/-- Association-list lookup used for the alias table and the flag map
(`ALIASES[cmd]`, `args[opt]`). -/
def lookupAssoc {α : Type} (l : List (String × α)) (k : String) : Option α :=
  (l.find? (fun p => p.1 = k)).map (·.2)

/-- Replace the binding for `k` (or append it) — JS `args[key] = v`. -/
def setFlag (fl : List (String × FlagVal)) (k : String) (v : FlagVal) :
    List (String × FlagVal) :=
  if fl.any (fun p => p.1 = k) then
    fl.map (fun p => if p.1 = k then (k, v) else p)
  else fl ++ [(k, v)]

/-- Does `s` start with the string `pre`? (JS `String.prototype.startsWith`
for the multi-character prefixes used by the flag parser.) -/
def strStarts (s pre : String) : Bool :=
  pre.data.isPrefixOf s.data

/-- Modelled from the spec: the external `minimist` argument parser is an npm
dependency whose source is not part of this repository.  Following §4.2 of
the spec, remaining tokens are split into positional arguments and a flag map
using `--name value` / `--name` (boolean) / `--no-name` (explicit negative
boolean) syntax; every flag declared boolean is defaulted to `false` (the
behaviour the deletion loop in `parseInput` exists to undo), a declared
boolean given as `--name` becomes `true`, and values are kept as strings (the
spec's §4.2 requires all non-boolean values to be string-typed in the final
output, so JS number conversion never survives normalization). -/
def minimistGo (booleans : List String) (toks : List String) (acc : Args) :
    Args :=
  match toks with
  | [] => acc
  | t :: rest =>
    if strStarts t "--no-" then
      minimistGo booleans rest
        { acc with flags := setFlag acc.flags (t.drop 5) (.bool false) }
    else if strStarts t "--" then
      let key := t.drop 2
      if booleans.contains key then
        minimistGo booleans rest
          { acc with flags := setFlag acc.flags key (.bool true) }
      else
        match rest with
        | [] => { acc with flags := setFlag acc.flags key (.bool true) }
        | v :: rest2 =>
          if strStarts v "--" then
            minimistGo booleans (v :: rest2)
              { acc with flags := setFlag acc.flags key (.bool true) }
          else
            minimistGo booleans rest2
              { acc with flags := setFlag acc.flags key (.str v) }
    else
      minimistGo booleans rest { acc with pos := acc.pos ++ [t] }

/-- `minimist(tokens, { boolean: [...booleanOptions] })`: all declared
booleans are present with value `false` before the tokens are scanned. -/
def minimist (tokens booleans : List String) : Args :=
  minimistGo booleans tokens
    { pos := [], flags := booleans.map (fun b => (b, .bool false)) }

/-- JS `toLowerCase` restricted to the per-character case mapping (command
words are ASCII). -/
def jsToLower (s : String) : String :=
  String.mk (s.data.map Char.toLower)

/-- The token list after alias resolution: `tokens[0] = ALIASES[cmd]` when the
lowercased first token is an alias.  `parseInput` runs minimist and the
boolean-deletion loop over exactly this list. -/
def resolvedTokens (line : String) : List String :=
  match tokenizeStr line with
  | [] => []
  | t :: ts =>
    (match lookupAssoc ALIASES (jsToLower t) with
     | some canonical => canonical
     | none => t) :: ts

/-- The deletion loop at the end of `parseInput`: for each declared boolean
still `=== false`, remove it unless some token is literally `--no-<opt>`. -/
def stripGo (tokens : List String) : List String →
    List (String × FlagVal) → List (String × FlagVal)
  | [], fl => fl
  | opt :: opts, fl =>
    stripGo tokens opts
      (if lookupAssoc fl opt = some (.bool false) ∧
          ¬ tokens.contains ("--no-" ++ opt) then
        fl.filter (fun p => p.1 ≠ opt)
      else fl)

/-- `parseInput` from src/parser.mjs.  Returns `none` for a line with no
tokens.  The `String(...)` coercion pass of the source is the identity here
because the model keeps non-boolean values as strings throughout (see
`minimistGo`). -/
def parseInput (line : String) : Option Args :=
  let toks := resolvedTokens line
  match toks with
  | [] => none
  | _ :: _ =>
    let args := minimist toks booleanOptions
    some { pos := args.pos, flags := stripGo toks booleanOptions args.flags }

/-! ### Transport Channel framing (src/connection.mjs, `_onData` / `_dispatch`)

`_onData` scans the incoming buffer for newline delimiters.  With no newline
the whole buffer is appended to `pendingBuffers`; otherwise the first segment
completes the buffered partial record (dispatching their concatenation), each
further complete line in the buffer is dispatched on its own, and the bytes
after the last newline become the new pending buffer.  `pendingBuffers` is an
array of buffers in the source that is only ever concatenated, so it is
modelled as the concatenation (a `List Char`). -/

/-- Split a buffer into its complete newline-terminated segments and the
remainder after the last newline (the delimiters themselves are dropped,
matching `indexOf`/`slice` in the source). -/
def splitLines : List Char → List (List Char) × List Char
  | [] => ([], [])
  | c :: rest =>
    let (ms, r) := splitLines rest
    if c = '\n' then ([] :: ms, r)
    else
      match ms with
      | [] => ([], c :: r)
      | m :: ms2 => ((c :: m) :: ms2, r)

/-- One `_onData(buffer)` call: given the concatenated pending buffers and the
newly read buffer, return the list of messages passed to `_dispatch`, in
order, and the new pending-buffer contents. -/
def onData (pending buf : List Char) : List (List Char) × List Char :=
  match splitLines buf with
  | ([], _) => ([], pending ++ buf)
  | (m :: ms, rem) => ((pending ++ m) :: ms, rem)

/-- Deliver a sequence of reads (`data` events) one after the other,
collecting every dispatched message in order. -/
def feed (pending : List Char) : List (List Char) → List (List Char) × List Char
  | [] => ([], pending)
  | chunk :: chunks =>
    let (ms, p1) := onData pending chunk
    let (ms2, p2) := feed p1 chunks
    (ms ++ ms2, p2)

/-- A parsed wire Response as far as `_dispatch` inspects it: the correlation
id and the `error` / `result` fields.  `error = none` models a falsy `error`
field (absent), in which case the call resolves with `result`. -/
structure RespMsg where
  id : Nat
  error : Option String
  result : Option String
deriving DecidableEq, Repr

/-- A completion event produced by `_dispatch`: the PendingCall with this id
was rejected with the error message, or resolved with the result. -/
abbrev Completion := Nat × Except String (Option String)

/-- `_dispatch(message)` from src/connection.mjs, parameterized by the JSON
parser: on a parse failure the record is silently dropped; otherwise, when
the id is truthy and has a registered PendingCall, the call is removed from
the table and rejected (truthy `error`) or resolved (with `result`). -/
def dispatchMsg (parse : List Char → Option RespMsg)
    (st : List Nat × List Completion) (msg : List Char) :
    List Nat × List Completion :=
  match parse msg with
  | none => st
  | some r =>
    if r.id ≠ 0 ∧ st.1.contains r.id then
      (st.1.filter (fun i => i ≠ r.id),
       st.2 ++ [(r.id,
         match r.error with
         | some e => .error e
         | none => .ok r.result)])
    else st

/-- Fold `_dispatch` over a list of framed messages, starting from a
pending-call table (list of outstanding ids) with no completions yet. -/
def dispatchAll (parse : List Char → Option RespMsg) (callbacks : List Nat)
    (msgs : List (List Char)) : List Nat × List Completion :=
  msgs.foldl (dispatchMsg parse) (callbacks, [])

/-! ### DaemonConnection lifecycle (src/connection.mjs, `send` / `close`)

`close()` destroys the socket (when one is set) and nulls it; the socket's
`close` event handler then rejects every outstanding callback with
`new Error('Connection closed')` and clears the callback table.  A second
`close()` finds `this.socket === null` and does nothing, so the close event
(and hence the mass rejection) fires at most once. -/

/-- Connection state: whether a socket is set (`this.socket !== null`), the
next correlation id, and the outstanding PendingCall ids in insertion
order. -/
structure DaemonConnection where
  socketOpen : Bool
  nextId : Nat
  callbacks : List Nat
deriving DecidableEq, Repr

/-- The state right after a successful `connect()`. -/
def DaemonConnection.afterConnect : DaemonConnection :=
  { socketOpen := true, nextId := 1, callbacks := [] }

/-- `send(method, params)`: fails when not connected; otherwise allocates the
next id and registers the PendingCall before the write.  (The write-error
path, which would remove the callback again, is not exercised here.) -/
def DaemonConnection.send (c : DaemonConnection) :
    Except String (Nat × DaemonConnection) :=
  if ¬ c.socketOpen then .error "Not connected to daemon"
  else
    .ok (c.nextId,
      { c with nextId := c.nextId + 1, callbacks := c.callbacks ++ [c.nextId] })

/-- `close()` together with the resulting socket `close` event: when a socket
is set it is destroyed and every outstanding PendingCall is rejected with
`Connection closed`, emptying the table; when no socket is set nothing
happens.  Returns the new state and the rejection events in table order. -/
def DaemonConnection.close (c : DaemonConnection) :
    DaemonConnection × List (Nat × String) :=
  if c.socketOpen then
    ({ c with socketOpen := false, callbacks := [] },
     c.callbacks.map (fun i => (i, "Connection closed")))
  else (c, [])

/-! ### Session Lifecycle Manager (src/recorder.mjs)

`SessionRecorder` buffers trimmed command lines; `save` renders a header, the
commands and a trailing newline with `join('\n')` and writes the file;
`SessionPlayer.load` splits on `'\n'`, trims, and drops blank and
`#`-comment lines.  `SessionManager` derives the mode from the player (when
set and not done) or the recorder status, and guards each transition. -/

/-- JS whitespace as far as the inputs at hand contain it (space, tab,
carriage return, line feed; `String.prototype.trim` also strips rarer Unicode
space characters, which do not occur in command lines). -/
def isJsWs (c : Char) : Bool :=
  c = ' ' ∨ c = '\t' ∨ c = '\n' ∨ c = '\r'

/-- `String.prototype.trim` on the character list. -/
def trimChars (l : List Char) : List Char :=
  ((l.dropWhile isJsWs).reverse.dropWhile isJsWs).reverse

/-- `line.trim()`. -/
def jsTrim (s : String) : String :=
  String.mk (trimChars s.data)

/-- `line.startsWith(c)` for a single character (the `'#'` and `'.'` checks in
the source). -/
def startsWithChar (s : String) (c : Char) : Bool :=
  match s.data with
  | [] => false
  | c0 :: _ => c0 = c

/-- `parts.join('\n')` on character lists. -/
def joinNl : List (List Char) → List Char
  | [] => []
  | [p] => p
  | p :: ps => p ++ '\n' :: joinNl ps

/-- `content.split('\n')`: every segment, including the final one after the
last newline (JS `split` always yields trailing/empty segments). -/
def splitNl (l : List Char) : List (List Char) :=
  (splitLines l).1 ++ [(splitLines l).2]

/-- `SessionRecorder` state (fields as in the constructor). -/
structure SessionRecorder where
  commands : List String
  recording : Bool
  filename : Option String
  paused : Bool
deriving DecidableEq, Repr

/-- `new SessionRecorder()`. -/
def SessionRecorder.init : SessionRecorder :=
  { commands := [], recording := false, filename := none, paused := false }

/-- `start(filename)`: the generated timestamp-based name is passed in as
`autoName` (the source derives it from the current clock).  Returns the
resolved filename and the new state. -/
def SessionRecorder.start (_r : SessionRecorder) (filename : Option String)
    (autoName : String) : String × SessionRecorder :=
  let fn := filename.getD autoName
  (fn, { filename := some fn, commands := [], recording := true,
         paused := false })

/-- `record(line)`: ignore unless actively recording; ignore blank lines and
meta-commands (leading `.`); otherwise append the trimmed line. -/
def SessionRecorder.record (r : SessionRecorder) (line : String) :
    SessionRecorder :=
  if ¬ r.recording ∨ r.paused then r
  else
    let trimmed := jsTrim line
    if trimmed = "" ∨ startsWithChar trimmed '.' then r
    else { r with commands := r.commands ++ [trimmed] }

/-- `pause()`: toggle, returning the new paused flag. -/
def SessionRecorder.pause (r : SessionRecorder) : Bool × SessionRecorder :=
  (¬ r.paused, { r with paused := ¬ r.paused })

/-- The line list `save()` joins: the two-line header, the blank line, the
commands, and the empty string whose join produces the trailing newline —
`[...header, ...commands, '']`. -/
def saveParts (timestamp : String) (cmds : List String) : List String :=
  ["# Playwright REPL session", "# recorded " ++ timestamp, ""] ++ cmds ++ [""]

/-- The exact file content `save()` writes:
`[...header, ...commands, ''].join('\n')`. -/
def saveContent (timestamp : String) (cmds : List String) : String :=
  String.mk (joinNl ((saveParts timestamp cmds).map String.data))

/-- `save()`.  The filesystem write is modelled by `writeOk`: when the
directory cannot be created or the file cannot be written the source throws
out of `save` before any field is mutated, so the recorder state is returned
unchanged alongside the error.  On success the state is fully reset and
`{ filename, count }` is returned. -/
def SessionRecorder.save (r : SessionRecorder) (writeOk : Bool) :
    Except String (String × Nat) × SessionRecorder :=
  if ¬ r.recording then (.error "Not recording", r)
  else if ¬ writeOk then (.error "write failed", r)
  else (.ok (r.filename.getD "", r.commands.length), SessionRecorder.init)

/-- `discard()`: reset every field without writing. -/
def SessionRecorder.discard (_r : SessionRecorder) : SessionRecorder :=
  SessionRecorder.init

/-- The `status` getter: `idle`, `paused` or `recording`. -/
def SessionRecorder.status (r : SessionRecorder) : String :=
  if ¬ r.recording then "idle"
  else if r.paused then "paused"
  else "recording"

/-- The keep-predicate of `SessionPlayer.load`:
`line && !line.startsWith('#')`. -/
def keepLine (l : String) : Bool :=
  ¬ (l = "") ∧ ¬ startsWithChar l '#'

/-- `SessionPlayer.load` applied to file contents: split on newlines, trim
each line, keep the non-blank non-`#` lines. -/
def loadLines (content : String) : List String :=
  (((splitNl content.data).map String.mk).map jsTrim).filter keepLine

/-- `SessionPlayer` state. -/
structure SessionPlayer where
  filename : String
  commands : List String
  index : Nat
deriving DecidableEq, Repr

/-- The `done` getter. -/
def SessionPlayer.done (p : SessionPlayer) : Bool :=
  p.commands.length ≤ p.index

/-- `SessionManager` state: the private recorder, the optional player, and
the step flag. -/
structure SessionManager where
  recorder : SessionRecorder
  player : Option SessionPlayer
  step : Bool
deriving DecidableEq, Repr

/-- `new SessionManager()`. -/
def SessionManager.init : SessionManager :=
  { recorder := SessionRecorder.init, player := none, step := false }

/-- The `mode` getter: `replaying` while a player is set and not done,
otherwise the recorder status. -/
def SessionManager.mode (m : SessionManager) : String :=
  match m.player with
  | some p => if ¬ p.done then "replaying" else m.recorder.status
  | none => m.recorder.status

/-- `startRecording(filename)`: guarded on `idle`. -/
def SessionManager.startRecording (m : SessionManager)
    (filename : Option String) (autoName : String) :
    Except String String × SessionManager :=
  if m.mode ≠ "idle" then (.error ("Cannot record while " ++ m.mode), m)
  else
    let (fn, r) := m.recorder.start filename autoName
    (.ok fn, { m with recorder := r })

/-- `save()`: guarded on `recording`/`paused`; delegates to the recorder. -/
def SessionManager.save (m : SessionManager) (writeOk : Bool) :
    Except String (String × Nat) × SessionManager :=
  if m.mode ≠ "recording" ∧ m.mode ≠ "paused" then (.error "Not recording", m)
  else
    let (res, r) := m.recorder.save writeOk
    (res, { m with recorder := r })

/-- `togglePause()`: guarded on `recording`/`paused`. -/
def SessionManager.togglePause (m : SessionManager) :
    Except String Bool × SessionManager :=
  if m.mode ≠ "recording" ∧ m.mode ≠ "paused" then (.error "Not recording", m)
  else
    let (b, r) := m.recorder.pause
    (.ok b, { m with recorder := r })

/-- `discard()`: guarded on `recording`/`paused`. -/
def SessionManager.discard (m : SessionManager) :
    Except String Unit × SessionManager :=
  if m.mode ≠ "recording" ∧ m.mode ≠ "paused" then (.error "Not recording", m)
  else (.ok (), { m with recorder := m.recorder.discard })

/-- `record(line)`: unguarded delegation to the recorder. -/
def SessionManager.record (m : SessionManager) (line : String) :
    SessionManager :=
  { m with recorder := m.recorder.record line }

/-- `startReplay(filename, step)`: guarded on `idle`; `fileContent` models the
filesystem (`none` = `fs.existsSync` false, in which case the player
constructor's `load` throws). -/
def SessionManager.startReplay (m : SessionManager) (filename : String)
    (fileContent : Option String) (step : Bool) :
    Except String SessionPlayer × SessionManager :=
  if m.mode ≠ "idle" then (.error ("Cannot replay while " ++ m.mode), m)
  else
    match fileContent with
    | none => (.error ("File not found: " ++ filename), m)
    | some content =>
      let p : SessionPlayer :=
        { filename := filename, commands := loadLines content, index := 0 }
      (.ok p, { m with player := some p, step := step })

/-- `endReplay()`. -/
def SessionManager.endReplay (m : SessionManager) : SessionManager :=
  { m with player := none, step := false }

/-! ### Command processing (src/repl.mjs, `processLine` and the replay loop)

`processLine` trims the line, handles meta-commands, validates the command
word, translates `verify-*` commands and text-locator arguments to `run-code`
payloads, and dispatches the resulting args object with `ctx.conn.run`.  The
`try { await ctx.conn.run(args) ... } catch (err) { ... }` around the
dispatch catches a backend failure, logs it (optionally attempting one
reconnect) and **returns normally**, so a caller of `processLine` cannot
observe the failure.  The `.replay` handler loops `await processLine(ctx,
player.next())` over every loaded command. -/

/-- `ALL_COMMANDS` (`Object.keys(COMMANDS)` from src/resolve.mjs). -/
def ALL_COMMANDS : List String :=
  ["open", "close", "goto", "go-back", "go-forward", "reload", "click",
   "dblclick", "fill", "type", "press", "hover", "select", "check", "uncheck",
   "upload", "drag", "snapshot", "screenshot", "eval", "console", "network",
   "run-code", "tab-list", "tab-new", "tab-close", "tab-select",
   "cookie-list", "cookie-get", "cookie-set", "cookie-delete", "cookie-clear",
   "localstorage-list", "localstorage-get", "localstorage-set",
   "localstorage-delete", "localstorage-clear", "sessionstorage-list",
   "sessionstorage-get", "sessionstorage-set", "sessionstorage-delete",
   "sessionstorage-clear", "state-save", "state-load", "dialog-accept",
   "dialog-dismiss", "route", "route-list", "unroute", "resize", "pdf",
   "config-print", "install-browser", "list", "close-all", "kill-all"]

/-- `knownExtras` from `processLine`. -/
def knownExtras : List String :=
  ["help", "list", "close-all", "kill-all", "install", "install-browser",
   "verify-text", "verify-element", "verify-value", "verify-list"]

/-- The `verify-*` command names. -/
def verifyCommands : List String :=
  ["verify-text", "verify-element", "verify-value", "verify-list"]

/-- `refCommands` from `processLine`. -/
def refCommands : List String :=
  ["click", "dblclick", "hover", "fill", "select", "check", "uncheck"]

/-- The `/^e\d+$/` test on the second positional argument. -/
def isRefToken (s : String) : Bool :=
  match s.data with
  | [] => false
  | c :: rest => c = 'e' ∧ rest ≠ [] ∧ rest.all Char.isDigit

/-- A payload handed to `ctx.conn.run`: either a plain minimist args object,
or a `run-code` args object produced by `verifyToRunCode` / `textToRunCode`.
The generated Playwright source text is presentation data; the payload
records which translation produced it and from which arguments, which is
what the sequencing and replay claims depend on. -/
inductive Payload where
  | args (a : Args)
  | verifyCode (cmd : String) (pieces : List String)
  | textCode (cmd : String) (text : String) (extra : List String)
deriving DecidableEq, Repr

/-- `positionalArgs.join(' ')`. -/
def joinSp (parts : List String) : String :=
  String.intercalate " " parts

/-- `verifyToRunCode(cmdName, positionalArgs)` from src/repl.mjs: `none`
exactly when the source returns `null` (missing arguments), otherwise the
`run-code` payload built from the given pieces. -/
def verifyToRunCode (cmdName : String) (positionalArgs : List String) :
    Option Payload :=
  if cmdName = "verify-text" then
    let text := joinSp positionalArgs
    if text = "" then none else some (.verifyCode cmdName [text])
  else if cmdName = "verify-element" then
    match positionalArgs with
    | [] => none
    | role :: nameParts =>
      let nm := joinSp nameParts
      if role = "" ∨ nm = "" then none
      else some (.verifyCode cmdName [role, nm])
  else if cmdName = "verify-value" then
    match positionalArgs with
    | [] => none
    | ref :: valueParts =>
      let v := joinSp valueParts
      if ref = "" ∨ v = "" then none
      else some (.verifyCode cmdName [ref, v])
  else if cmdName = "verify-list" then
    match positionalArgs with
    | [] => none
    | ref :: items =>
      if ref = "" ∨ items = [] then none
      else some (.verifyCode cmdName (ref :: items))
  else none

/-- `textToRunCode(cmdName, textArg, extraArgs)`: defined (non-null) for
exactly the seven `refCommands`. -/
def textToRunCode (cmdName text : String) (extraArgs : List String) :
    Option Payload :=
  if refCommands.contains cmdName then some (.textCode cmdName text extraArgs)
  else none

/-- Observable repl state threaded through `processLine`: the payloads sent
with `ctx.conn.run` in order, `ctx.commandCount`, the session manager, the
errors printed by the per-command catch, and the session-level operations
(`close` / `close-all` / `kill-all`) which talk to the daemon by other
means. -/
structure RState where
  dispatched : List Payload
  commandCount : Nat
  session : SessionManager
  errors : List String
  sideOps : List String
deriving DecidableEq, Repr

/-- Initial repl state with an idle session. -/
def RState.init : RState :=
  { dispatched := [], commandCount := 0, session := SessionManager.init,
    errors := [], sideOps := [] }

/-- `processLine(ctx, line)` for input lines that are not meta-commands,
parameterized by the backend (`ctx.conn.run`), which returns the response
text or a remote error.  Every branch matches the source: blank lines and
unparsable lines return; unknown command words log and return; `close` /
`close-all` / `kill-all` are handled without `conn.run`; `verify-*` commands
are translated (usage error when the translation is null); a non-`e<digits>`
second positional of a `refCommand` is auto-resolved to a text locator
payload; finally the payload is dispatched, and a backend error is caught:
it is appended to the error log and the function returns normally.  Lines
starting with `.` are left unchanged here: the meta handlers never reach
`conn.run`, and the replay traces studied below contain no meta lines. -/
def processCommandLine (backend : Payload → Except String String)
    (st : RState) (rawLine : String) : RState :=
  let line := jsTrim rawLine
  if line = "" then st
  else if startsWithChar line '.' then st
  else
    match parseInput line with
    | none => st
    | some args =>
      match args.pos with
      | [] => st
      | cmdName :: restPos =>
        if cmdName = "" then st
        else if ¬ (ALL_COMMANDS.contains cmdName ∨
                   knownExtras.contains cmdName) then
          { st with errors := st.errors ++ ["Unknown command: " ++ cmdName] }
        else if cmdName = "kill-all" ∨ cmdName = "close" ∨
                cmdName = "close-all" then
          { st with sideOps := st.sideOps ++ [cmdName] }
        else
          let translated :=
            if verifyCommands.contains cmdName then
              match verifyToRunCode cmdName restPos with
              | some p => some (some p)
              | none => none
            else some none
          match translated with
          | none => { st with errors := st.errors ++ ["Usage: " ++ cmdName] }
          | some verifyPayload =>
            let payload :=
              match verifyPayload with
              | some p => p
              | none =>
                if refCommands.contains cmdName then
                  match restPos with
                  | [] => .args args
                  | a1 :: extra =>
                    if a1 ≠ "" ∧ ¬ isRefToken a1 then
                      match textToRunCode cmdName a1 extra with
                      | some p => p
                      | none => .args args
                    else .args args
                else .args args
            match backend payload with
            | .ok _result =>
              { st with dispatched := st.dispatched ++ [payload],
                        commandCount := st.commandCount + 1,
                        session := st.session.record line }
            | .error e =>
              { st with dispatched := st.dispatched ++ [payload],
                        errors := st.errors ++ [e] }

/-- The `.replay` / `runReplayMode` loop body: feed every loaded command, in
file order, through `processLine`.  Because `processCommandLine` is total —
the per-command catch in the source swallows backend failures — the loop
always runs to the end of the command list. -/
def replayRun (backend : Payload → Except String String) (st : RState)
    (cmds : List String) : RState :=
  cmds.foldl (processCommandLine backend) st

/-- The dispatch footprint of one line: which `conn.run` payloads processing
it produces, independent of the backend's answers. -/
def lineDispatches (rawLine : String) : List Payload :=
  let line := jsTrim rawLine
  if line = "" then []
  else if startsWithChar line '.' then []
  else
    match parseInput line with
    | none => []
    | some args =>
      match args.pos with
      | [] => []
      | cmdName :: restPos =>
        if cmdName = "" then []
        else if ¬ (ALL_COMMANDS.contains cmdName ∨
                   knownExtras.contains cmdName) then []
        else if cmdName = "kill-all" ∨ cmdName = "close" ∨
                cmdName = "close-all" then []
        else
          let translated :=
            if verifyCommands.contains cmdName then
              match verifyToRunCode cmdName restPos with
              | some p => some (some p)
              | none => none
            else some none
          match translated with
          | none => []
          | some verifyPayload =>
            [match verifyPayload with
             | some p => p
             | none =>
               if refCommands.contains cmdName then
                 match restPos with
                 | [] => .args args
                 | a1 :: extra =>
                   if a1 ≠ "" ∧ ¬ isRefToken a1 then
                     match textToRunCode cmdName a1 extra with
                     | some p => p
                     | none => .args args
                   else .args args
               else .args args]

/-! ### Execution Sequencer (src/repl.mjs, `startCommandLoop`)

The loop keeps a `processing` flag and a `commandQueue`.  The `line` event
handler pushes the line and calls `processQueue()`, which returns at once if
a drain is already running (`if (processing) return`), otherwise marks itself
the active drain and repeatedly shifts and fully executes one command
(`await processLine`) until the queue is empty.  JavaScript's run-to-
completion semantics mean new lines can only arrive while `processLine` is
suspended at an `await`; the transition system below has exactly these
interleavings (plus harmless extra ones, e.g. an arrival that has not yet
triggered its synchronous `processQueue` call). -/

/-- Sequencer state: the live queue and drain/processing data plus history
(arrival order, dispatch order, number of completed executions) used to state
the ordering properties. -/
structure SeqState where
  queue : List String
  drains : Nat
  inFlight : Option String
  arrived : List String
  dispatched : List String
  completed : Nat
deriving DecidableEq, Repr

/-- The state before any input. -/
def SeqState.init : SeqState :=
  { queue := [], drains := 0, inFlight := none, arrived := [],
    dispatched := [], completed := 0 }

/-- Events of `startCommandLoop`:
* `arrive` — the `line` handler pushes onto `commandQueue`;
* `startDrain` — `processQueue` passes the `if (processing) return` guard and
  sets `processing = true` (only possible when no drain is active);
* `dispatch` — the running drain shifts the head of the queue and begins
  `await processLine` (only with no execution in flight);
* `complete` — the awaited `processLine` finishes (success or failure — the
  drain does not distinguish);
* `finishDrain` — the drain finds the queue empty and clears `processing`. -/
inductive SeqStep : SeqState → SeqState → Prop
  | arrive (s : SeqState) (l : String) :
      SeqStep s { s with queue := s.queue ++ [l], arrived := s.arrived ++ [l] }
  | startDrain (s : SeqState) (h : s.drains = 0) :
      SeqStep s { s with drains := 1 }
  | dispatch (s : SeqState) (l : String) (rest : List String)
      (hq : s.queue = l :: rest) (hd : s.drains = 1) (hf : s.inFlight = none) :
      SeqStep s { s with queue := rest, inFlight := some l,
                         dispatched := s.dispatched ++ [l] }
  | complete (s : SeqState) (l : String) (h : s.inFlight = some l) :
      SeqStep s { s with inFlight := none, completed := s.completed + 1 }
  | finishDrain (s : SeqState) (hd : s.drains = 1) (hq : s.queue = [])
      (hf : s.inFlight = none) :
      SeqStep s { s with drains := 0 }

/-- States reachable from the start of the command loop. -/
def SeqReachable (s : SeqState) : Prop :=
  Relation.ReflTransGen SeqStep SeqState.init s

/-- The ordering invariant of the command loop:
* at most one drain loop is ever active;
* the dispatch history followed by the live queue is exactly the arrival
  history — so commands are dispatched in arrival order, with none skipped
  or duplicated;
* when no command is executing, every dispatched command has completed; when
  one is executing it is the most recently dispatched command and all others
  have completed — so executions never overlap and a new dispatch (which
  requires `inFlight = none`) happens only after the previous command's
  completion was processed;
* a command can only be executing inside the active drain. -/
def SeqInv (s : SeqState) : Prop :=
  s.drains ≤ 1 ∧
  s.arrived = s.dispatched ++ s.queue ∧
  (match s.inFlight with
   | none => s.completed = s.dispatched.length
   | some l => s.completed + 1 = s.dispatched.length ∧
       s.dispatched.getLast? = some l) ∧
  (s.inFlight ≠ none → s.drains = 1)

/-! ## Supporting lemmas -/

/-- Whitespace-only input drives the tokenizer loop to the empty token list. -/
lemma tokenizeGo_ws_nil :
    ∀ line : List Char, (∀ c ∈ line, c = ' ' ∨ c = '\t') →
      tokenizeGo none [] line = [] := by
  intro line h
  induction line with
  | nil => rfl
  | cons c rest ih =>
    have hc := h c (List.mem_cons_self c rest)
    have hrest : ∀ x ∈ rest, x = ' ' ∨ x = '\t' :=
      fun x hx => h x (List.mem_cons_of_mem c hx)
    have hq : ¬ (c = dquote ∨ c = squote) := by
      rcases hc with hc | hc <;> subst hc <;> decide
    simp only [tokenizeGo, hq, if_false, hc, if_true, if_pos rfl]
    simpa using ih hrest

/-- Inside a quoted span with no matching close quote in the rest of the
line, the loop consumes everything into the final token. -/
lemma tokenizeGo_unterminated :
    ∀ (rest cur : List Char) (q : Char), q ∉ rest →
      tokenizeGo (some q) cur rest =
        if cur ++ rest = [] then [] else [cur ++ rest] := by
  intro rest
  induction rest with
  | nil => intro cur q _; simp [tokenizeGo]
  | cons c rest ih =>
    intro cur q hq
    have hcq : ¬ c = q := fun h => hq (h ▸ List.mem_cons_self c rest)
    have hqrest : q ∉ rest := fun h => hq (List.mem_cons_of_mem c h)
    simp only [tokenizeGo, if_neg hcq]
    rw [ih (cur ++ [c]) q hqrest]
    simp

/-- Every token the loop emits is non-empty (tokens are pushed only under
the `if (current)` guards). -/
lemma tokenizeGo_ne_nil :
    ∀ (rest : List Char) (iq : Option Char) (cur t : List Char),
      t ∈ tokenizeGo iq cur rest → t ≠ [] := by
  intro rest
  induction rest with
  | nil =>
    intro iq cur t ht
    simp only [tokenizeGo] at ht
    by_cases hcur : cur = []
    · simp [hcur] at ht
    · simp [hcur] at ht; simp [ht, hcur]
  | cons c rest ih =>
    intro iq cur t ht
    match iq with
    | some q =>
      simp only [tokenizeGo] at ht
      by_cases hc : c = q
      · exact ih none cur t (by simpa [hc] using ht)
      · exact ih (some q) (cur ++ [c]) t (by simpa [hc] using ht)
    | none =>
      simp only [tokenizeGo] at ht
      by_cases hquote : c = dquote ∨ c = squote
      · exact ih (some c) cur t (by simpa [hquote] using ht)
      · by_cases hws : c = ' ' ∨ c = '\t'
        · by_cases hcur : cur = []
          · exact ih none [] t (by simpa [hquote, hws, hcur] using ht)
          · simp only [if_neg hquote, if_pos hws, if_neg hcur] at ht
            rcases List.mem_cons.mp ht with h | h
            · simpa [h] using hcur
            · exact ih none [] t h
        · exact ih none (cur ++ [c]) t (by simpa [hquote, hws] using ht)

/-! ## Claim C8 — tokenizer quoting -/

/-- C8.  The tokenizer splits on whitespace outside quoted spans: a single or
double quote opens a span consuming every character, whitespace included, up
to the matching close quote of the same kind, excluding the quote characters
from the token; an unterminated quote consumes to end of line (stated for the
loop in its in-quote state and for a whole line); tokenization is total and
whitespace-only input yields no tokens; and both `fill e7 'hello world'` and
`fill e7 "hello world"` tokenize to `["fill", "e7", "hello world"]`. -/
theorem tokenize_quoting :
    tokenize ("fill e7 ".data ++ [squote] ++ "hello world".data ++ [squote]) =
      ["fill".data, "e7".data, "hello world".data] ∧
    tokenizeStr "fill e7 \"hello world\"" = ["fill", "e7", "hello world"] ∧
    (∀ line : List Char, (∀ c ∈ line, c = ' ' ∨ c = '\t') →
      tokenize line = []) ∧
    (∀ (rest cur : List Char) (q : Char), q ∉ rest →
      tokenizeGo (some q) cur rest =
        if cur ++ rest = [] then [] else [cur ++ rest]) ∧
    tokenize ("fill e7 ".data ++ [squote] ++ "a b".data) =
      ["fill".data, "e7".data, "a b".data] := by
  refine ⟨by decide, by decide, ?_, tokenizeGo_unterminated, by decide⟩
  intro line h
  exact tokenizeGo_ws_nil line h

/-- C8 witness: the universally quantified parts applied at concrete
inputs. -/
theorem tokenize_quoting_witness :
    tokenize "  \t ".data = [] ∧
    tokenizeGo (some squote) "he".data "llo wor".data =
      (if ("he".data ++ "llo wor".data : List Char) = [] then []
       else [("he".data ++ "llo wor".data : List Char)]) :=
  ⟨tokenize_quoting.2.2.1 "  \t ".data (by decide),
   tokenize_quoting.2.2.2.1 "llo wor".data "he".data squote (by decide)⟩

/-! ## Claim C9 — tokens are non-empty -/

/-- C9.  Every token produced by the tokenizer is a non-empty string, and an
empty quoted span contributes no token: `fill e7 ''` tokenizes to
`["fill", "e7"]`, not to a three-element list ending in `""`. -/
theorem tokenize_ne_nil :
    (∀ (line t : List Char), t ∈ tokenize line → t ≠ []) ∧
    tokenize ("fill e7 ".data ++ [squote, squote]) =
      ["fill".data, "e7".data] := by
  exact ⟨fun line t ht => tokenizeGo_ne_nil line none [] t ht, by decide⟩

/-- C9 witness: the non-emptiness statement applied to a concrete token of a
concrete line. -/
theorem tokenize_ne_nil_witness : "fill".data ≠ ([] : List Char) :=
  tokenize_ne_nil.1 "fill e7".data "fill".data (by decide)

/-! ## Claim C5 — boolean flag stripping -/

/-- Unfolding `lookupAssoc` over a cons cell. -/
lemma lookupAssoc_cons {α : Type} (p : String × α) (l : List (String × α))
    (k : String) :
    lookupAssoc (p :: l) k = if p.1 = k then some p.2 else lookupAssoc l k := by
  by_cases h : p.1 = k <;> simp [lookupAssoc, List.find?_cons, h]

/-- Filtering out one key from a flag map empties its lookup and preserves
every other lookup. -/
lemma lookupAssoc_filter (fl : List (String × FlagVal)) (k k' : String) :
    lookupAssoc (fl.filter (fun p => p.1 ≠ k')) k =
      if k = k' then none else lookupAssoc fl k := by
  induction fl with
  | nil => simp [lookupAssoc]
  | cons p fl ih =>
    by_cases hpk : p.1 = k'
    · rw [show (p :: fl).filter (fun q => q.1 ≠ k') =
            fl.filter (fun q => q.1 ≠ k') from by simp [List.filter_cons, hpk],
          ih]
      by_cases hk : k = k'
      · simp [hk]
      · have hpne : ¬ p.1 = k := fun h => hk (h.symm.trans hpk)
        rw [if_neg hk, if_neg hk, lookupAssoc_cons, if_neg hpne]
    · rw [show (p :: fl).filter (fun q => q.1 ≠ k') =
            p :: fl.filter (fun q => q.1 ≠ k') from by
            simp [List.filter_cons, hpk],
          lookupAssoc_cons, lookupAssoc_cons, ih]
      by_cases hfind : p.1 = k
      · have hk : ¬ k = k' := fun h => hpk (by rw [hfind, h])
        simp [hfind, hk]
      · simp [hfind]

/-- The deletion loop never adds or changes a binding: a lookup that succeeds
after the loop already had that value before it. -/
lemma stripGo_lookup_some (tokens : List String) :
    ∀ (opts : List String) (fl : List (String × FlagVal)) (k : String)
      (v : FlagVal),
      lookupAssoc (stripGo tokens opts fl) k = some v →
      lookupAssoc fl k = some v := by
  intro opts
  induction opts with
  | nil => intro fl k v h; simpa [stripGo] using h
  | cons o opts ih =>
    intro fl k v h
    simp only [stripGo] at h
    by_cases hcond : lookupAssoc fl o = some (.bool false) ∧
        ¬ tokens.contains ("--no-" ++ o)
    · rw [if_pos hcond] at h
      have h2 := ih _ k v h
      rw [lookupAssoc_filter] at h2
      by_cases hk : k = o
      · simp [hk] at h2
      · simpa [hk] using h2
    · rw [if_neg hcond] at h
      exact ih _ k v h

/-- After the deletion loop, a declared boolean that is still `false` must
have been explicitly negated: some token is literally `--no-<opt>`. -/
lemma stripGo_false_requires_no (tokens : List String) :
    ∀ (opts : List String) (fl : List (String × FlagVal)) (opt : String),
      opt ∈ opts →
      lookupAssoc (stripGo tokens opts fl) opt = some (.bool false) →
      tokens.contains ("--no-" ++ opt) = true := by
  intro opts
  induction opts with
  | nil => intro fl opt h; simp at h
  | cons o opts ih =>
    intro fl opt hmem h
    simp only [stripGo] at h
    by_cases hcond : lookupAssoc fl o = some (.bool false) ∧
        ¬ tokens.contains ("--no-" ++ o)
    · rw [if_pos hcond] at h
      have h2 := stripGo_lookup_some tokens opts _ opt _ h
      rw [lookupAssoc_filter] at h2
      by_cases hk : opt = o
      · simp [hk] at h2
      · rcases List.mem_cons.mp hmem with h3 | h3
        · exact absurd h3 hk
        · exact ih _ opt h3 h
    · rw [if_neg hcond] at h
      rcases List.mem_cons.mp hmem with h3 | h3
      · subst h3
        have hval := stripGo_lookup_some tokens opts _ opt _ h
        rcases not_and_or.mp hcond with hbad | hno
        · exact absurd hval hbad
        · simpa using not_not.mp hno
      · exact ih _ opt h3 h

/-- C5.  `parseInput` omits from the normalized output every declared boolean
that minimist defaulted to `false` and that the user did not explicitly
negate — any boolean flag present with value `false` owes its presence to a
literal `--no-<flag>` token — while an explicit `--no-<flag>` is preserved as
`false`; in particular `click e5` normalizes with no boolean flags at all and
`open --no-headed` normalizes to exactly `headed: false`. -/
theorem parseInput_boolean_stripping :
    (∀ (line : String) (a : Args) (opt : String),
      parseInput line = some a → opt ∈ booleanOptions →
      lookupAssoc a.flags opt = some (.bool false) →
      ("--no-" ++ opt) ∈ resolvedTokens line) ∧
    parseInput "click e5" = some { pos := ["click", "e5"], flags := [] } ∧
    parseInput "open --no-headed" =
      some { pos := ["open"], flags := [("headed", .bool false)] } := by
  refine ⟨?_, by decide, by decide⟩
  intro line a opt hparse hopt hval
  unfold parseInput at hparse
  cases htoks : resolvedTokens line with
  | nil => rw [htoks] at hparse; exact absurd hparse (by simp)
  | cons t ts =>
    rw [htoks] at hparse
    simp only [Option.some_inj] at hparse
    rw [← hparse] at hval
    dsimp only at hval
    have h2 := stripGo_false_requires_no (t :: ts) booleanOptions
      (minimist (t :: ts) booleanOptions).flags opt hopt hval
    simpa using h2

/-- C5 witness: the general part applied to `open --no-headed` and `headed`,
with the concrete hypotheses discharged by evaluation. -/
theorem parseInput_boolean_stripping_witness :
    ("--no-" ++ "headed") ∈ resolvedTokens "open --no-headed" :=
  parseInput_boolean_stripping.1 "open --no-headed"
    { pos := ["open"], flags := [("headed", .bool false)] } "headed"
    (by decide) (by decide) (by decide)

/-! ## Claim C2 — framing is independent of chunk boundaries -/

/-- How the line-splitting of a concatenation is assembled from the
line-splittings of the two halves: the first half's remainder is glued onto
the second half's first complete line. -/
def glue (x y : List (List Char) × List Char) : List (List Char) × List Char :=
  match y.1 with
  | [] => (x.1, x.2 ++ y.2)
  | m :: ms => (x.1 ++ (x.2 ++ m) :: ms, y.2)

/-- `splitLines` is compositional over concatenation. -/
lemma splitLines_append (a b : List Char) :
    splitLines (a ++ b) = glue (splitLines a) (splitLines b) := by
  induction a with
  | nil =>
    rcases hb : splitLines b with ⟨ms2, r2⟩
    cases ms2 <;> simp [glue, hb, splitLines]
  | cons c a ih =>
    rcases ha : splitLines a with ⟨ms1, r1⟩
    rcases hb : splitLines b with ⟨ms2, r2⟩
    rw [ha, hb] at ih
    by_cases hc : c = '\n'
    · subst hc
      simp only [List.cons_append, splitLines, ih, ha]
      cases ms2 <;> simp [glue, ih]
    · simp only [List.cons_append, splitLines, ih, ha, hc, if_neg]
      cases ms1 <;> cases ms2 <;> simp [glue, hc, ih]

/-- A buffer with no complete line is entirely remainder. -/
lemma splitLines_nil_fst (l : List Char) (h : (splitLines l).1 = []) :
    (splitLines l).2 = l := by
  induction l with
  | nil => rfl
  | cons c rest ih =>
    rcases hr : splitLines rest with ⟨ms, r⟩
    rw [hr] at ih
    by_cases hc : c = '\n'
    · subst hc; simp [splitLines, hr] at h
    · cases ms with
      | nil =>
        simp only [splitLines, hr, hc] at h ⊢
        simpa using ih rfl
      | cons m ms2 => simp [splitLines, hr, hc] at h

/-- A newline-free buffer has no complete line. -/
lemma splitLines_of_no_newline (l : List Char) (h : '\n' ∉ l) :
    splitLines l = ([], l) := by
  induction l with
  | nil => rfl
  | cons c rest ih =>
    have hc : ¬ c = '\n' := fun e => h (List.mem_cons.mpr (Or.inl e.symm))
    have hrest : '\n' ∉ rest := fun e => h (List.mem_cons_of_mem c e)
    simp [splitLines, ih hrest, hc]

/-- One `_onData` call on a concatenated buffer dispatches exactly what two
consecutive calls on the halves dispatch, and leaves the same pending
bytes. -/
lemma onData_append (p a b : List Char) :
    onData p (a ++ b) =
      ((onData p a).1 ++ (onData (onData p a).2 b).1,
       (onData (onData p a).2 b).2) := by
  rcases ha : splitLines a with ⟨ms1, r1⟩
  rcases hb : splitLines b with ⟨ms2, r2⟩
  have hab := splitLines_append a b
  rw [ha, hb] at hab
  cases ms1 with
  | nil =>
    have hr1 : r1 = a := by
      have h2 := splitLines_nil_fst a (by rw [ha])
      rw [ha] at h2; exact h2
    subst hr1
    cases ms2 <;> simp [onData, hab, ha, hb, glue, List.append_assoc]
  | cons m1 ms1 =>
    cases ms2 with
    | nil =>
      have hr2 : r2 = b := by
        have h2 := splitLines_nil_fst b (by rw [hb])
        rw [hb] at h2; exact h2
      subst hr2
      simp [onData, hab, ha, hb, glue]
    | cons m2 ms2 => simp [onData, hab, ha, hb, glue, List.append_assoc]

/-- Feeding any sequence of reads is the same as feeding their
concatenation in a single read. -/
lemma feed_eq_onData_flatten (chunks : List (List Char)) :
    ∀ p, feed p chunks = onData p chunks.flatten := by
  induction chunks with
  | nil => intro p; simp [feed, onData, splitLines]
  | cons c cs ih =>
    intro p
    rw [List.flatten_cons, onData_append p c cs.flatten]
    simp [feed, ih]

/-- A single newline-terminated record completes the buffered partial record
and is dispatched whole. -/
lemma onData_single_record (p m : List Char) (h : '\n' ∉ m) :
    onData p (m ++ ['\n']) = ([p ++ m], []) := by
  have h1 : splitLines (m ++ ['\n']) = ([m], []) := by
    have h2 := splitLines_append m ['\n']
    rw [splitLines_of_no_newline m h] at h2
    simpa [glue, splitLines] using h2
  simp [onData, h1]

/-- C2.  Delimiter-based framing is independent of read boundaries: feeding
any sequence of chunks to `_onData` dispatches exactly the messages (and
leaves exactly the pending bytes) of feeding their concatenation in one
read — in particular, any chunking of a newline-terminated record, including
splits inside the payload, dispatches the same message bytes, so the
`_dispatch` pass completes the matching PendingCall with the same parsed
result for any parse function; a full record arriving alone is dispatched
whole; two complete records in a single read are each dispatched. -/
theorem onData_chunk_invariance :
    (∀ (pending : List Char) (chunks : List (List Char)),
      feed pending chunks = onData pending chunks.flatten) ∧
    (∀ m : List Char, '\n' ∉ m → onData [] (m ++ ['\n']) = ([m], [])) ∧
    (∀ m1 m2 : List Char, '\n' ∉ m1 → '\n' ∉ m2 →
      onData [] ((m1 ++ ['\n']) ++ (m2 ++ ['\n'])) = ([m1, m2], [])) ∧
    (∀ (parse : List Char → Option RespMsg) (callbacks : List Nat)
       (chunks : List (List Char)),
      dispatchAll parse callbacks (feed [] chunks).1 =
        dispatchAll parse callbacks (onData [] chunks.flatten).1) := by
  have hfeed : ∀ (pending : List Char) (chunks : List (List Char)),
      feed pending chunks = onData pending chunks.flatten :=
    fun pending chunks => feed_eq_onData_flatten chunks pending
  refine ⟨hfeed, fun m h => onData_single_record [] m h, ?_, ?_⟩
  · intro m1 m2 h1 h2
    rw [onData_append [] (m1 ++ ['\n']) (m2 ++ ['\n']),
        onData_single_record [] m1 h1]
    simp [onData_single_record [] m2 h2]
  · intro parse callbacks chunks
    rw [hfeed [] chunks]

/-- C2 witness: the record `id1-result-ok` split in the middle of its payload
into three chunks dispatches identically to the unsplit record, and two
records in one read are both dispatched. -/
theorem onData_chunk_invariance_witness :
    feed [] ["id1-re".data, "sult".data, "-ok\n".data] =
      onData [] (["id1-re".data, "sult".data, "-ok\n".data]).flatten ∧
    onData [] ("id1-result-ok".data ++ ['\n']) = (["id1-result-ok".data], []) ∧
    onData [] (("id1-ok".data ++ ['\n']) ++ ("id2-err".data ++ ['\n'])) =
      (["id1-ok".data, "id2-err".data], []) :=
  ⟨onData_chunk_invariance.1 [] ["id1-re".data, "sult".data, "-ok\n".data],
   onData_chunk_invariance.2.1 "id1-result-ok".data (by decide),
   onData_chunk_invariance.2.2.1 "id1-ok".data "id2-err".data
     (by decide) (by decide)⟩

/-! ## Claim C1 — serialized, ordered command execution -/

/-- C1.  Every state the command loop can reach satisfies the sequencing
invariant: at most one drain loop is ever active (a burst of arrivals during
an execution only appends to the queue of the already-running drain), the
dispatch history followed by the pending queue is exactly the arrival
history (commands are dispatched one at a time in exact arrival order, none
skipped, reordered or duplicated), and the completion bookkeeping shows that
a dispatch only ever happens after every previously dispatched command's
completion has been processed, so no two command executions overlap. -/
theorem seq_inv_holds (s : SeqState) (h : SeqReachable s) : SeqInv s := by
  induction h with
  | refl => simp [SeqInv, SeqState.init]
  | tail hr step ih =>
    rcases ih with ⟨hdr, hord, hfl, hact⟩
    cases step with
    | arrive l =>
      refine ⟨hdr, by simp [hord, List.append_assoc], ?_, ?_⟩
      · simpa using hfl
      · simpa using hact
    | startDrain h0 =>
      refine ⟨by simp, hord, ?_, by simp⟩
      simpa using hfl
    | dispatch l rest hq hd hf =>
      simp only [hf] at hfl
      refine ⟨by simpa using hdr, ?_, ?_, by simp [hd]⟩
      · simp only []
        rw [hord, hq]
        simp
      · simp only []
        refine ⟨by simp [hfl], ?_⟩
        simp
    | complete l hl =>
      simp only [hl] at hfl
      refine ⟨by simpa using hdr, hord, ?_, by simp⟩
      simpa using hfl.1
    | finishDrain hd hq hf =>
      refine ⟨by simp, hord, ?_, by simp [hf]⟩
      simp only [hf] at hfl
      simpa [hf] using hfl

/-- C1 witness: the invariant at the concrete state reached after one line
arrives and the (single) drain starts. -/
theorem seq_inv_holds_witness :
    SeqInv { queue := ["click e5"], drains := 1, inFlight := none,
             arrived := ["click e5"], dispatched := [], completed := 0 } :=
  seq_inv_holds _
    (Relation.ReflTransGen.tail
      (Relation.ReflTransGen.tail Relation.ReflTransGen.refl
        (SeqStep.arrive SeqState.init "click e5"))
      (SeqStep.startDrain _ rfl))

/-! ## Claim C7 — close fails all pending calls exactly once -/

/-- C7.  Closing the channel while a socket is set rejects every outstanding
PendingCall with `Connection closed`, in table order, and leaves the
pending-call table empty; a repeated `close` finds no socket, so it rejects
nothing and changes nothing — the mass rejection happens exactly once per
close. -/
theorem close_fails_pending (c : DaemonConnection) (h : c.socketOpen = true) :
    c.close.2 = c.callbacks.map (fun i => (i, "Connection closed")) ∧
    c.close.1.callbacks = [] ∧
    c.close.1.close = (c.close.1, []) := by
  simp [DaemonConnection.close, h]

/-- C7 witness: a connection with two outstanding calls (ids 1 and 2,
registered by two `send`s) — both are failed and the table is empty. -/
theorem close_fails_pending_witness :
    ({ socketOpen := true, nextId := 3,
       callbacks := [1, 2] } : DaemonConnection).close.2 =
      [(1, "Connection closed"), (2, "Connection closed")] ∧
    ({ socketOpen := true, nextId := 3,
       callbacks := [1, 2] } : DaemonConnection).close.1.callbacks = [] ∧
    ({ socketOpen := true, nextId := 3,
       callbacks := [1, 2] } : DaemonConnection).close.1.close =
      (({ socketOpen := true, nextId := 3,
          callbacks := [1, 2] } : DaemonConnection).close.1, []) :=
  close_fails_pending
    { socketOpen := true, nextId := 3, callbacks := [1, 2] } (by decide)

/-! ## Claim C10 — a failed save loses nothing -/

/-- C10.  When the filesystem write inside `save()` fails (directory creation
or file write throws), the recorder is returned exactly as it was: still
recording, with the same buffered commands, filename and paused flag — the
captured session is not lost.  (All field mutations in the source occur
after the `writeFileSync` call.) -/
theorem save_write_failure_preserves_state (r : SessionRecorder)
    (h : r.recording = true) :
    r.save false = (.error "write failed", r) := by
  simp [SessionRecorder.save, h]

/-- C10 witness: a recorder with two buffered commands survives a failed
write untouched. -/
theorem save_write_failure_preserves_state_witness :
    ({ commands := ["goto https://x", "click e5"], recording := true,
       filename := some "t.pw", paused := false } : SessionRecorder).save
        false =
      (.error "write failed",
       { commands := ["goto https://x", "click e5"], recording := true,
         filename := some "t.pw", paused := false }) :=
  save_write_failure_preserves_state
    { commands := ["goto https://x", "click e5"], recording := true,
      filename := some "t.pw", paused := false } (by decide)

/-! ## Claim C6 — lifecycle guards -/

/-- A manager in `replaying` mode (a loaded, unfinished player). -/
def replayingManager : SessionManager :=
  { recorder := SessionRecorder.init,
    player := some { filename := "s.pw", commands := ["click e5"], index := 0 },
    step := false }

/-- C6 counterexample.  Guard violations never mutate state, but the errors
of `save` / `togglePause` / `discard` do **not** identify the current mode:
`save` fails with the same fixed message `Not recording` both on an idle
manager and on a replaying one, so the error cannot identify which mode the
manager was in (whereas the claim, following the spec, requires a
state-conflict error identifying the current mode for every guard-violating
operation). -/
theorem session_guard_mode_error_counterexample :
    SessionManager.init.mode = "idle" ∧
    replayingManager.mode = "replaying" ∧
    (SessionManager.init.save true).1 = .error "Not recording" ∧
    (replayingManager.save true).1 = .error "Not recording" := by
  decide

/-- C6 amended.  Every guard-violating operation fails with a state-conflict
error and leaves the manager exactly unchanged (recorder buffer, filename,
paused flag, player, cursor and step flag); `startRecording` and
`startReplay` name the current mode in the error, while `save`,
`togglePause` and `discard` fail with the fixed message `Not recording`. -/
theorem session_guards_amended :
    (∀ (m : SessionManager) (w : Bool),
      m.mode ≠ "recording" → m.mode ≠ "paused" →
      m.save w = (.error "Not recording", m)) ∧
    (∀ m : SessionManager,
      m.mode ≠ "recording" → m.mode ≠ "paused" →
      m.togglePause = (.error "Not recording", m)) ∧
    (∀ m : SessionManager,
      m.mode ≠ "recording" → m.mode ≠ "paused" →
      m.discard = (.error "Not recording", m)) ∧
    (∀ (m : SessionManager) (fn : Option String) (auto : String),
      m.mode ≠ "idle" →
      m.startRecording fn auto =
        (.error ("Cannot record while " ++ m.mode), m)) ∧
    (∀ (m : SessionManager) (f : String) (content : Option String) (st : Bool),
      m.mode ≠ "idle" →
      m.startReplay f content st =
        (.error ("Cannot replay while " ++ m.mode), m)) := by
  refine ⟨?_, ?_, ?_, ?_, ?_⟩
  · intro m w h1 h2; simp [SessionManager.save, h1, h2]
  · intro m h1 h2; simp [SessionManager.togglePause, h1, h2]
  · intro m h1 h2; simp [SessionManager.discard, h1, h2]
  · intro m fn auto h; simp [SessionManager.startRecording, h]
  · intro m f content st h; simp [SessionManager.startReplay, h]

/-- C6 witness: idle guards for `save`/`togglePause`/`discard`, and
`startRecording`/`startReplay` guards while replaying, all at concrete
managers. -/
theorem session_guards_amended_witness :
    SessionManager.init.save true = (.error "Not recording",
      SessionManager.init) ∧
    SessionManager.init.togglePause = (.error "Not recording",
      SessionManager.init) ∧
    SessionManager.init.discard = (.error "Not recording",
      SessionManager.init) ∧
    replayingManager.startRecording (some "b.pw") "auto.pw" =
      (.error ("Cannot record while " ++ replayingManager.mode),
       replayingManager) ∧
    replayingManager.startReplay "b.pw" (some "click e5") false =
      (.error ("Cannot replay while " ++ replayingManager.mode),
       replayingManager) :=
  ⟨session_guards_amended.1 SessionManager.init true (by decide) (by decide),
   session_guards_amended.2.1 SessionManager.init (by decide) (by decide),
   session_guards_amended.2.2.1 SessionManager.init (by decide) (by decide),
   session_guards_amended.2.2.2.1 replayingManager (some "b.pw") "auto.pw"
     (by decide),
   session_guards_amended.2.2.2.2 replayingManager "b.pw" (some "click e5")
     false (by decide)⟩

/-! ## Claim C4 — record / save / load round trip -/

/-- `dropWhile` only exposes a head on which the predicate fails. -/
lemma dropWhile_head?_false {α : Type} (p : α → Bool) (l : List α) (c : α)
    (h : (l.dropWhile p).head? = some c) : p c = false := by
  induction l with
  | nil => simp [List.dropWhile] at h
  | cons a rest ih =>
    by_cases hp : p a
    · exact ih (by simpa [List.dropWhile_cons, hp] using h)
    · simp only [List.dropWhile_cons, if_neg] at h
      rw [if_neg (by simpa using hp)] at h
      simp only [List.head?_cons, Option.some_inj] at h
      subst h; simpa using hp

/-- A list whose head does not satisfy `p` is untouched by `dropWhile p`. -/
lemma dropWhile_eq_self_of_head {α : Type} (p : α → Bool) (l : List α)
    (h : ∀ c, l.head? = some c → p c = false) : l.dropWhile p = l := by
  cases l with
  | nil => rfl
  | cons a rest => simp [List.dropWhile_cons, h a rfl]

/-- `dropWhile` keeps a suffix, so the last element is unchanged when the
result is non-empty. -/
lemma getLast?_dropWhile {α : Type} (p : α → Bool) (l : List α)
    (h : l.dropWhile p ≠ []) : (l.dropWhile p).getLast? = l.getLast? := by
  induction l with
  | nil => simp [List.dropWhile] at h
  | cons a rest ih =>
    by_cases hp : p a
    · have hd : (a :: rest).dropWhile p = rest.dropWhile p := by
        simp [List.dropWhile_cons, hp]
      rw [hd] at h ⊢
      rw [ih h]
      cases hrest : rest with
      | nil => subst hrest; simp [List.dropWhile] at h
      | cons b rest2 => simp [List.getLast?_cons_cons]
    · simp [List.dropWhile_cons, hp]

/-- The head of a trimmed string is not whitespace. -/
lemma trimChars_head?_false (l : List Char) (c : Char)
    (h : (trimChars l).head? = some c) : isJsWs c = false := by
  unfold trimChars at h
  rw [List.head?_reverse] at h
  have hne : (l.dropWhile isJsWs).reverse.dropWhile isJsWs ≠ [] := by
    intro he; rw [he] at h; simp at h
  rw [getLast?_dropWhile _ _ hne, List.getLast?_reverse] at h
  exact dropWhile_head?_false isJsWs l c h

/-- The last character of a trimmed string is not whitespace. -/
lemma trimChars_getLast?_false (l : List Char) (c : Char)
    (h : (trimChars l).getLast? = some c) : isJsWs c = false := by
  unfold trimChars at h
  rw [List.getLast?_reverse] at h
  exact dropWhile_head?_false isJsWs _ c h

/-- A string with non-whitespace boundaries is already trimmed. -/
lemma trimChars_fixed (l : List Char)
    (hh : ∀ c, l.head? = some c → isJsWs c = false)
    (hl : ∀ c, l.getLast? = some c → isJsWs c = false) : trimChars l = l := by
  unfold trimChars
  rw [dropWhile_eq_self_of_head isJsWs l hh,
      dropWhile_eq_self_of_head isJsWs l.reverse
        (fun c hc => hl c (by rwa [List.head?_reverse] at hc)),
      List.reverse_reverse]

/-- Trimming is idempotent. -/
lemma trimChars_idem (l : List Char) : trimChars (trimChars l) = trimChars l :=
  trimChars_fixed (trimChars l) (trimChars_head?_false l)
    (trimChars_getLast?_false l)

/-- `trim` on strings is idempotent. -/
lemma jsTrim_idem (s : String) : jsTrim (jsTrim s) = jsTrim s := by
  unfold jsTrim
  rw [show (String.mk (trimChars s.data)).data = trimChars s.data from rfl,
      trimChars_idem]

/-- Trimming a string that starts with a non-whitespace character keeps that
first character. -/
lemma trimChars_cons_of_not_ws (c : Char) (t : List Char)
    (h : isJsWs c = false) : ∃ t2, trimChars (c :: t) = c :: t2 := by
  unfold trimChars
  rw [dropWhile_eq_self_of_head isJsWs (c :: t)
      (fun d hd => by simpa [← Option.some_inj.mp hd] using h)]
  rw [show (c :: t).reverse = t.reverse ++ [c] by simp, List.dropWhile_append]
  by_cases he : (t.reverse.dropWhile isJsWs).isEmpty = true
  · rw [if_pos he]
    refine ⟨[], ?_⟩
    simp [List.dropWhile_cons, h]
  · rw [if_neg he]
    exact ⟨(t.reverse.dropWhile isJsWs).reverse, by simp⟩

/-- Splitting on newlines inverts joining, for newline-free parts. -/
lemma splitNl_joinNl (parts : List (List Char)) (hne : parts ≠ [])
    (h : ∀ p ∈ parts, '\n' ∉ p) : splitNl (joinNl parts) = parts := by
  induction parts with
  | nil => exact absurd rfl hne
  | cons p ps ih =>
    cases ps with
    | nil =>
      have hp : '\n' ∉ p := h p (by simp)
      simp [joinNl, splitNl, splitLines_of_no_newline p hp]
    | cons q qs =>
      have hp : '\n' ∉ p := h p (by simp)
      have hrest : ∀ x ∈ q :: qs, '\n' ∉ x :=
        fun x hx => h x (List.mem_cons_of_mem p hx)
      have ihr := ih (by simp) hrest
      rcases hs : splitLines (joinNl (q :: qs)) with ⟨ms, r⟩
      unfold splitNl at ihr
      rw [hs] at ihr
      simp only at ihr
      rw [show joinNl (p :: q :: qs) = p ++ '\n' :: joinNl (q :: qs) from rfl]
      unfold splitNl
      rw [splitLines_append, splitLines_of_no_newline p hp,
          show splitLines ('\n' :: joinNl (q :: qs)) =
            ([] :: ms, r) from by simp [splitLines, hs]]
      simp [glue, ihr]

/-- Trimming preserves a leading `#`. -/
lemma startsWithChar_jsTrim_hash (s : String)
    (h : startsWithChar s '#' = true) :
    startsWithChar (jsTrim s) '#' = true := by
  unfold jsTrim
  unfold startsWithChar at h
  cases hd : s.data with
  | nil => rw [hd] at h; simp at h
  | cons c t =>
    rw [hd] at h
    simp only [decide_eq_true_eq] at h
    subst h
    rcases trimChars_cons_of_not_ws '#' t (by decide) with ⟨t2, ht2⟩
    rw [ht2]
    simp [startsWithChar]

/-- A `#`-comment line is dropped by the loader. -/
lemma keepLine_eq_false_of_hash (l : String)
    (h : startsWithChar l '#' = true) : keepLine l = false := by
  simp [keepLine, h]

/-- A non-blank non-comment line survives the loader's filter. -/
lemma keepLine_true (l : String) (h1 : l ≠ "")
    (h2 : startsWithChar l '#' = false) : keepLine l = true := by
  simp [keepLine, h1, h2]

/-- Appending to a `#`-initial string keeps the leading `#`. -/
lemma startsWithChar_append_hash (s t : String)
    (h : startsWithChar s '#' = true) :
    startsWithChar (s ++ t) '#' = true := by
  unfold startsWithChar at h ⊢
  rw [String.data_append]
  cases hd : s.data with
  | nil => rw [hd] at h; simp at h
  | cons c r => rw [hd] at h; simpa using h

/-- Rebuilding a string from its characters is the identity. -/
lemma mk_data (s : String) : String.mk s.data = s := by cases s; rfl

/-- None of the lines written by `save()` contains a newline, given a
newline-free timestamp and newline-free commands. -/
lemma saveParts_no_newline (ts : String) (cmds : List String)
    (hts : '\n' ∉ ts.data) (hc : ∀ c ∈ cmds, '\n' ∉ c.data) :
    ∀ p ∈ (saveParts ts cmds).map String.data, '\n' ∉ p := by
  intro p hp
  simp only [saveParts, List.map_append, List.mem_append, List.mem_map] at hp
  rcases hp with (hp | hp) | hp
  · rcases hp with ⟨s, hs, rfl⟩
    simp only [List.mem_cons, List.mem_singleton] at hs
    rcases hs with rfl | rfl | (rfl | hs)
    · decide
    · rw [show ("# recorded " ++ ts).data =
          "# recorded ".data ++ ts.data from String.data_append ..]
      intro hmem
      rcases List.mem_append.mp hmem with hmem | hmem
      · revert hmem; decide
      · exact hts hmem
    · decide
    · simp at hs
  · rcases hp with ⟨s, hs, rfl⟩
    exact hc s hs
  · rcases hp with ⟨s, hs, rfl⟩
    simp only [List.mem_singleton] at hs
    subst hs; decide

/-- Splitting a freshly saved file recovers exactly its lines: the two `#`
header lines, the blank line, the commands, and the empty segment after the
trailing newline. -/
lemma splitNl_saveContent (ts : String) (cmds : List String)
    (hts : '\n' ∉ ts.data) (hc : ∀ c ∈ cmds, '\n' ∉ c.data) :
    splitNl (saveContent ts cmds).data =
      (saveParts ts cmds).map String.data := by
  unfold saveContent
  rw [show (String.mk (joinNl ((saveParts ts cmds).map String.data))).data =
      joinNl ((saveParts ts cmds).map String.data) from rfl]
  exact splitNl_joinNl _ (by simp [saveParts])
    (saveParts_no_newline ts cmds hts hc)

/-- Loading a freshly saved file yields back exactly the saved commands,
provided no command is blank, none begins with `#`, none contains a newline,
and all are trim-fixed (as recorder-buffered commands are). -/
lemma loadLines_saveContent (ts : String) (cmds : List String)
    (hts : '\n' ∉ ts.data)
    (h : ∀ c ∈ cmds, jsTrim c = c ∧ c ≠ "" ∧ startsWithChar c '#' = false ∧
      '\n' ∉ c.data) :
    loadLines (saveContent ts cmds) = cmds := by
  unfold loadLines
  rw [splitNl_saveContent ts cmds hts (fun c hc => (h c hc).2.2.2)]
  rw [List.map_map, List.map_map,
      List.map_congr_left (fun (s : String) _ =>
        show ((jsTrim ∘ String.mk) ∘ String.data) s = jsTrim s from by
          simp [mk_data])]
  unfold saveParts
  rw [List.map_append, List.map_append, List.filter_append,
      List.filter_append]
  have hA : ((["# Playwright REPL session", "# recorded " ++ ts, ""]).map
      jsTrim).filter keepLine = [] := by
    simp only [List.map_cons, List.map_nil]
    rw [List.filter_cons, List.filter_cons, List.filter_cons, List.filter_nil]
    rw [keepLine_eq_false_of_hash _ (by decide),
        keepLine_eq_false_of_hash _
          (startsWithChar_jsTrim_hash _
            (startsWithChar_append_hash "# recorded " ts (by decide))),
        show jsTrim "" = "" from by decide,
        show keepLine "" = false from by decide]
    simp
  have hB : (cmds.map jsTrim).filter keepLine = cmds := by
    rw [List.map_congr_left (fun c hc => (h c hc).1), List.map_id',
        List.filter_eq_self.mpr]
    intro c hc
    exact keepLine_true c (h c hc).2.1 (h c hc).2.2.1
  have hC : (([""]).map jsTrim).filter keepLine = [] := by decide
  rw [hA, hB, hC]
  simp

/-- Every command the recorder has buffered is trimmed, non-blank and not a
meta-command; when no input line trims to a `#`-initial or newline-containing
string, the buffer also contains no such command. -/
lemma record_foldl_commands :
    ∀ (lines : List String) (r : SessionRecorder),
      (∀ l ∈ lines, startsWithChar (jsTrim l) '#' = false ∧
        '\n' ∉ (jsTrim l).data) →
      (∀ c ∈ r.commands, jsTrim c = c ∧ c ≠ "" ∧
        startsWithChar c '#' = false ∧ '\n' ∉ c.data) →
      ∀ c ∈ (lines.foldl SessionRecorder.record r).commands,
        jsTrim c = c ∧ c ≠ "" ∧ startsWithChar c '#' = false ∧
          '\n' ∉ c.data := by
  intro lines
  induction lines with
  | nil => intro r _ hr c hc; exact hr c hc
  | cons l rest ih =>
    intro r hlines hr c hc
    rw [List.foldl_cons] at hc
    refine ih (r.record l)
      (fun x hx => hlines x (List.mem_cons_of_mem l hx)) ?_ c hc
    intro d hd
    unfold SessionRecorder.record at hd
    by_cases hrec : ¬ r.recording = true ∨ r.paused = true
    · rw [if_pos hrec] at hd; exact hr d hd
    · rw [if_neg hrec] at hd
      by_cases hskip : jsTrim l = "" ∨ startsWithChar (jsTrim l) '.' = true
      · rw [if_pos hskip] at hd; exact hr d hd
      · rw [if_neg hskip] at hd
        simp only at hd
        rcases List.mem_append.mp hd with hd2 | hd2
        · exact hr d hd2
        · have hdl : d = jsTrim l := by simpa using hd2
          subst hdl
          have hl := hlines l (List.mem_cons_self l rest)
          exact ⟨jsTrim_idem l, (not_or.mp hskip).1, hl.1, hl.2⟩

/-- C4 counterexample.  The recorder accepts the command line `# note` (its
own filter only rejects blank lines and `.`-meta-commands), but the loader
filters out every `#`-initial line, so saving and re-loading such a
recording yields `[]` rather than the accepted `["# note"]`: the round trip,
as claimed for *every* accepted command list, fails. -/
theorem record_replay_roundtrip_counterexample :
    (SessionRecorder.record
      { commands := [], recording := true, filename := some "t.pw",
        paused := false } "# note").commands = ["# note"] ∧
    loadLines (saveContent "2026-02-09T19:30:00Z" ["# note"]) = [] := by
  decide

/-- C4 amended.  For every recording (a fold of `record` over arbitrary
input lines from a freshly started recorder) in which no accepted line trims
to a `#`-initial or newline-containing string, saving and loading round-trips
exactly: the loader returns the accepted commands in order, and the saved
file consists of precisely the two `#` header lines (title and timestamp), a
blank line, the commands, and a trailing newline. -/
theorem record_replay_roundtrip_amended (ts autoName : String)
    (fn : Option String) (lines : List String)
    (hts : '\n' ∉ ts.data)
    (hlines : ∀ l ∈ lines, startsWithChar (jsTrim l) '#' = false ∧
      '\n' ∉ (jsTrim l).data) :
    loadLines (saveContent ts
      (lines.foldl SessionRecorder.record
        (SessionRecorder.init.start fn autoName).2).commands) =
    (lines.foldl SessionRecorder.record
        (SessionRecorder.init.start fn autoName).2).commands ∧
    splitNl (saveContent ts
      (lines.foldl SessionRecorder.record
        (SessionRecorder.init.start fn autoName).2).commands).data =
      (saveParts ts
        (lines.foldl SessionRecorder.record
          (SessionRecorder.init.start fn autoName).2).commands).map
        String.data := by
  have hbase : ∀ c ∈ (SessionRecorder.init.start fn autoName).2.commands,
      jsTrim c = c ∧ c ≠ "" ∧ startsWithChar c '#' = false ∧
        '\n' ∉ c.data := by
    simp [SessionRecorder.start]
  have hprops := record_foldl_commands lines _ hlines hbase
  exact ⟨loadLines_saveContent ts _ hts hprops,
         splitNl_saveContent ts _ hts (fun c hc => (hprops c hc).2.2.2)⟩

/-- C4 witness: recording `goto https://x`, `click e5` (and a skipped
`.save` meta-line), then saving and loading, yields back exactly those two
commands. -/
theorem record_replay_roundtrip_amended_witness :
    loadLines (saveContent "2026-02-09T19:30:00Z"
      ((["goto https://x", "click e5", ".save"].foldl SessionRecorder.record
        (SessionRecorder.init.start (some "t.pw") "auto.pw").2).commands)) =
    (["goto https://x", "click e5", ".save"].foldl SessionRecorder.record
      (SessionRecorder.init.start (some "t.pw") "auto.pw").2).commands :=
  (record_replay_roundtrip_amended "2026-02-09T19:30:00Z" "auto.pw"
    (some "t.pw") ["goto https://x", "click e5", ".save"]
    (by decide) (by decide)).1

/-! ## Claim C3 — replay and per-command errors -/

/-- Processing one line appends exactly its dispatch footprint, whatever the
backend answers: the per-command catch in `processLine` swallows the failure
after the dispatch has already happened, so neither the dispatch decision nor
the control flow afterwards depends on the backend's answer. -/
lemma processCommandLine_dispatched
    (backend : Payload → Except String String) (st : RState)
    (rawLine : String) :
    (processCommandLine backend st rawLine).dispatched =
      st.dispatched ++ lineDispatches rawLine := by
  unfold processCommandLine lineDispatches
  dsimp only
  split
  · simp
  · split
    · simp
    · split
      · simp
      · split
        · simp
        · split
          · simp
          · split
            · simp
            · split
              · simp
              · split
                · simp
                · split <;> simp

/-- A backend that rejects `click` commands and accepts everything else. -/
def failClickBackend : Payload → Except String String := fun p =>
  match p with
  | .args a => if a.pos.head? = some "click" then .error "Unknown ref e5"
               else .ok "OK"
  | _ => .ok "OK"

/-- C3 counterexample.  Replaying the two-command session
`click e5; snapshot` against a backend that fails the `click`: the first
command's error is caught and logged, and `snapshot` — a command *after* the
failing one — is still dispatched to the backend.  The replay is not aborted
at the failure, contradicting the claimed fail-fast behaviour. -/
theorem replay_failfast_counterexample :
    (replayRun failClickBackend RState.init
      ["click e5", "snapshot"]).errors = ["Unknown ref e5"] ∧
    (replayRun failClickBackend RState.init
      ["click e5", "snapshot"]).dispatched =
      [Payload.args { pos := ["click", "e5"], flags := [] },
       Payload.args { pos := ["snapshot"], flags := [] }] := by
  decide

/-- C3 amended.  A runtime error from a replayed command does **not** abort
the replay: the `.replay` loop feeds every loaded command through
`processLine`, whose per-command catch reports the failure and returns
normally, so the backend dispatch trace of a replay is exactly the
concatenated dispatch footprints of all its commands — independent of which
commands fail.  Only an error thrown outside the per-command handler (e.g. a
missing replay file, which aborts before any dispatch) stops a replay
early.  (Stated for replay files without `.`-meta lines, which is all the
recorder ever saves.) -/
theorem replay_no_failfast (backend : Payload → Except String String)
    (st : RState) (cmds : List String)
    (hmeta : ∀ c ∈ cmds, startsWithChar (jsTrim c) '.' = false) :
    (replayRun backend st cmds).dispatched =
      st.dispatched ++ (cmds.map lineDispatches).flatten := by
  induction cmds generalizing st with
  | nil => simp [replayRun]
  | cons c cs ih =>
    have hstep :
        replayRun backend st (c :: cs) =
          replayRun backend (processCommandLine backend st c) cs := rfl
    rw [hstep, ih (processCommandLine backend st c)
          (fun x hx => hmeta x (List.mem_cons_of_mem c hx)),
        processCommandLine_dispatched]
    simp [List.append_assoc]

/-- C3 witness: the amended statement at the concrete failing replay of the
counterexample — the trace equals both commands' footprints. -/
theorem replay_no_failfast_witness :
    (replayRun failClickBackend RState.init
      ["click e5", "snapshot"]).dispatched =
      RState.init.dispatched ++
        ((["click e5", "snapshot"].map lineDispatches).flatten) :=
  replay_no_failfast failClickBackend RState.init ["click e5", "snapshot"]
    (by decide)

end PlaywrightRepl
